import Mathlib

/-! Shallow embedding of the user CRUD service (`api-demo-node`): the Joi-based
request validation layer (`validation-middleware.ts`, `user.schema.ts`,
`shared.schema.ts`) and the user CRUD controllers
(`create-new-user.ts`, `update-user.ts`, `delete-user.ts`, `users-model.ts`).

Modelling conventions:
* A runtime user object is a record of seven possibly-absent string fields
  (`Option String`); the TypeScript `User` type declares all seven, but route
  handlers pass validated bodies in which optional keys may be missing, so the
  runtime-object view with `Option` fields is the faithful one.
* JavaScript `===` comparisons against an id that may be a string, `null` or
  `undefined` are modelled by `JsVal`.
* Raw request bodies are ordered association lists `List (String × String)`
  (all fields of this API are strings); reading a property of such an object is
  `lookupField`.
* `new Date().toISOString()` is modelled by a `now : String` parameter, one
  instant per operation (the repository's tests freeze the clock the same way);
  ISO-8601 UTC strings of equal format compare lexicographically in
  chronological order, so clock monotonicity is stated with `≤` on `String`.
* `crypto.randomUUID()` is modelled by a `freshId : String` parameter;
  freshness/non-emptiness are explicit hypotheses where a claim needs them.
-/

set_option autoImplicit false

namespace ApiDemo

/-- A JavaScript value that an id comparison `user.id === id` can see:
a string, `null`, or `undefined` (also the result of reading an absent key). -/
inductive JsVal where
  | str : String → JsVal
  | nullV : JsVal
  | undef : JsVal
deriving DecidableEq, Repr

/-- Reading a possibly-absent string property of a JS object. -/
def toJs : Option String → JsVal
  | some s => JsVal.str s
  | none => JsVal.undef

/-- Runtime user object (`users-model.ts` type `User`): the seven fields,
each possibly absent at runtime. -/
structure User where
  id : Option String := none
  firstName : Option String := none
  lastName : Option String := none
  email : Option String := none
  phone : Option String := none
  createdAt : Option String := none
  updatedAt : Option String := none
deriving DecidableEq, Repr

/-- The seeded initial collection `users` of `users-model.ts`. -/
def users : List User :=
  [ { id := some "4b1335f4-788b-4e8d-9ed5-04b99ce430a4", firstName := some "Emma",
      lastName := some "Johnson", email := some "emma.johnson@email.com",
      phone := some "+1-555-555-0123", createdAt := some "2023-01-15T08:30:00Z",
      updatedAt := some "2023-08-22T14:15:30Z" },
    { id := some "c27d2af0-b713-4092-a73b-024d1313233f", firstName := some "Liam",
      lastName := some "Williams", email := some "liam.williams@email.com",
      phone := some "+1-555-555-0456", createdAt := some "2023-02-03T12:45:15Z",
      updatedAt := some "2023-09-10T09:22:45Z" },
    { id := some "02ad7f8d-9a4d-4f00-b101-7744851880a2", firstName := some "Sophia",
      lastName := some "Brown", email := some "sophia.brown@email.com",
      phone := some "+1-555-555-0789", createdAt := some "2023-03-22T16:20:30Z",
      updatedAt := some "2023-07-18T11:33:20Z" },
    { id := some "a3fdef38-b254-4139-b93c-7e576baf9536", firstName := some "Noah",
      lastName := some "Davis", email := some "noah.davis@email.com",
      phone := some "+1-555-555-0321", createdAt := some "2023-04-07T10:15:45Z",
      updatedAt := some "2023-09-25T15:40:10Z" },
    { id := some "872afdbd-639e-495f-94f0-c008799f7914", firstName := some "Olivia",
      lastName := some "Miller", email := some "olivia.miller@email.com",
      phone := some "+1-555-555-0654", createdAt := some "2023-05-12T13:25:20Z",
      updatedAt := some "2023-08-30T16:55:35Z" },
    { id := some "3415a2d7-8f54-4e17-8966-55d1b0219ee4", firstName := some "Ethan",
      lastName := some "Wilson", email := some "ethan.wilson@email.com",
      phone := some "+1-555-555-0987", createdAt := some "2023-01-28T09:40:10Z",
      updatedAt := some "2023-06-14T12:28:50Z" },
    { id := some "a81f014a-efea-40d1-9a53-ff7f329b653c", firstName := some "Ava",
      lastName := some "Moore", email := some "ava.moore@email.com",
      phone := some "+1-555-555-0147", createdAt := some "2023-06-05T14:55:25Z",
      updatedAt := some "2023-09-12T10:18:40Z" },
    { id := some "3d4c5f82-909d-474c-95ee-0ab44fec640e", firstName := some "Mason",
      lastName := some "Taylor", email := some "mason.taylor@email.com",
      phone := some "+1-555-555-0258", createdAt := some "2023-07-19T11:30:50Z",
      updatedAt := some "2023-09-28T13:42:15Z" },
    { id := some "8b5fac60-b246-4601-81e7-a517ceea1c6d", firstName := some "Isabella",
      lastName := some "Anderson", email := some "isabella.anderson@email.com",
      phone := some "+1-555-555-0369", createdAt := some "2023-08-01T07:15:35Z",
      updatedAt := some "2023-09-05T08:50:25Z" },
    { id := some "798ada0b-a752-449c-9138-551a4850fb03", firstName := some "William",
      lastName := some "Thomas", email := some "william.thomas@email.com",
      phone := some "+1-555-555-0741", createdAt := some "2023-09-14T15:20:10Z",
      updatedAt := some "2023-09-20T17:35:55Z" } ]

/-! Validation layer model (`shared.schema.ts`, `user.schema.ts`,
`validation-middleware.ts`) -/

/-- One entry of the `details` array produced by `validateRequest` on failure. -/
structure ErrDetail where
  path : String
  message : String
deriving DecidableEq, Repr

/-- One Joi rule on a string field: the custom message and the check. -/
structure FieldCheck where
  message : String
  check : String → Bool

/-- One declared field of a Joi object schema: name, whether `.required()`,
and the rule checks beyond the base string type. -/
structure FieldSpec where
  name : String
  required : Bool
  checks : List FieldCheck

/-- Splits a character list on a separator (used for the email grammar). -/
def splitList (sep : Char) : List Char → List (List Char)
  | [] => [[]]
  | c :: rest =>
    let r := splitList sep rest
    if c = sep then [] :: r
    else
      match r with
      | [] => [[c]]
      | h :: t => (c :: h) :: t

/-- Check of `emailSchema` (`Joi.string().email()`): models Joi's email grammar
structurally — one `@`, non-empty local part, a domain of at least two
non-empty labels whose last label is alphabetic of length ≥ 2. -/
def emailCheck (s : String) : Bool :=
  match splitList '@' s.data with
  | [lp, domain] =>
    !lp.isEmpty &&
      (let labels := splitList '.' domain
       decide (2 ≤ labels.length) && labels.all (fun l => !l.isEmpty) &&
         (match labels.getLast? with
          | some tld => decide (2 ≤ tld.length) && tld.all (·.isAlpha)
          | none => false))
  | _ => false

/-- JavaScript `\s` for the characters this API can see. -/
def isSpaceLike (c : Char) : Bool :=
  c = ' ' || c = '\t' || c = '\n' || c = '\r'

/-- The `[\d-\s]{7,15}$` part of `phoneSchema`'s pattern. -/
def isPhoneBody (cs : List Char) : Bool :=
  decide (7 ≤ cs.length) && decide (cs.length ≤ 15) &&
    cs.all (fun c => c.isDigit || c = '-' || isSpaceLike c)

/-- Remainders of `cs` after consuming between 0 and `n` leading digits
(the `\d{0,n}` alternatives of a backtracking regex engine). -/
def dropDigitsUpTo : Nat → List Char → List (List Char)
  | 0, cs => [cs]
  | n + 1, cs =>
    cs ::
      (match cs with
       | c :: rest => if c.isDigit then dropDigitsUpTo n rest else []
       | [] => [])

/-- Remainders after an optional `[-\s]` separator. -/
def optSep (cs : List Char) : List (List Char) :=
  match cs with
  | c :: rest => if c = '-' || isSpaceLike c then [cs, rest] else [cs]
  | [] => [[]]

/-- Check of `phoneSchema`: the pattern `^(\+[1-9]\d{0,3}[-\s]?)?[\d-\s]{7,15}$`
of `shared.schema.ts`, with regex backtracking rendered as a search over the
finitely many parses of the optional international-code group. -/
def phoneCheck (s : String) : Bool :=
  let cs := s.data
  let candidates : List (List Char) :=
    cs ::
      (match cs with
       | '+' :: c :: rest =>
         if c.isDigit && c != '0' then ((dropDigitsUpTo 3 rest).map optSep).flatten
         else []
       | _ => [])
  candidates.any isPhoneBody

/-- Hexadecimal digit (either case). -/
def isHexChar (c : Char) : Bool :=
  c.isDigit || ('a' ≤ c && c ≤ 'f') || ('A' ≤ c && c ≤ 'F')

/-- Check of `idSchema` (`Joi.string().uuid()`): canonical 8-4-4-4-12 form. -/
def uuidCheck (s : String) : Bool :=
  let cs := s.data
  cs.length == 36 &&
    cs.enum.all fun p =>
      if p.1 = 8 ∨ p.1 = 13 ∨ p.1 = 18 ∨ p.1 = 23 then p.2 = '-' else isHexChar p.2

/-- The email rule with its custom message from `shared.schema.ts`. -/
def emailRule : FieldCheck := ⟨"Invalid email address", emailCheck⟩

/-- The phone rule with its custom message from `shared.schema.ts`. -/
def phoneRule : FieldCheck := ⟨"Invalid phone number", phoneCheck⟩

/-- The uuid rule with its custom message from `shared.schema.ts`. -/
def idRule : FieldCheck := ⟨"Invalid ID", uuidCheck⟩

/-- Schema `userBaseSchema` of `user.schema.ts`: four optional fields, in declaration
order. -/
def userBaseSchema : List FieldSpec :=
  [⟨"firstName", false, []⟩, ⟨"lastName", false, []⟩,
   ⟨"email", false, [emailRule]⟩, ⟨"phone", false, [phoneRule]⟩]

/-- Joi's `.fork(names, schema => schema.required())`. -/
def fork (names : List String) (schema : List FieldSpec) : List FieldSpec :=
  schema.map fun f => if f.name ∈ names then { f with required := true } else f

/-- Schema `userCreateSchema = userBaseSchema.fork(['firstName', 'lastName'],
(schema) => schema.required())`. -/
def userCreateSchema : List FieldSpec := fork ["firstName", "lastName"] userBaseSchema

/-- Schema `userUpdateSchema = userBaseSchema`. -/
def userUpdateSchema : List FieldSpec := userBaseSchema

/-- Schema `userIdSchema`, a single required field `id` checked by `idSchema`. -/
def userIdSchema : List FieldSpec := [⟨"id", true, [idRule]⟩]

/-- Reading property `name` of a JS object given as an association list. -/
def lookupField (input : List (String × String)) (name : String) : Option String :=
  (input.find? fun kv => kv.1 == name).map (·.2)

/-- Joi's default `any.required` message under `errors.wrap.label = false`. -/
def requiredMessage (name : String) : String := name ++ " is required"

/-- Joi's default `string.empty` message under `errors.wrap.label = false`
(`Joi.string()` rejects the empty string). -/
def emptyMessage (name : String) : String := name ++ " is not allowed to be empty"

/-- Joi's per-key validation pass with `abortEarly: false` and
`stripUnknown: true`: walks the declared fields in declaration order,
accumulating every violation and the sanitized value (declared keys present in
the input, unknown keys dropped). -/
def validateFields : List FieldSpec → List (String × String) →
    List ErrDetail × List (String × String)
  | [], _ => ([], [])
  | f :: rest, input =>
    let r := validateFields rest input
    match lookupField input f.name with
    | none =>
      (if f.required then ⟨f.name, requiredMessage f.name⟩ :: r.1 else r.1, r.2)
    | some v =>
      let errs :=
        if v = "" then [⟨f.name, emptyMessage f.name⟩]
        else (f.checks.filter fun c => !c.check v).map fun c => ⟨f.name, c.message⟩
      (errs ++ r.1, (f.name, v) :: r.2)

/-- Middleware `validateRequest` of `validation-middleware.ts`: on any violation, answers
with the full `details` list; otherwise passes the sanitized value on. -/
def validateRequest (schema : List FieldSpec) (input : List (String × String)) :
    Except (List ErrDetail) (List (String × String)) :=
  if (validateFields schema input).1.isEmpty then .ok (validateFields schema input).2
  else .error (validateFields schema input).1

/-! Timestamp order. `Date.toISOString()` always emits the same fixed-width UTC format, on which
lexicographic string order coincides with chronological order; `timeLe` is the
executable lexicographic comparison used to state clock monotonicity. -/

/-- Lexicographic order on character lists (by code point). -/
def lexLe : List Char → List Char → Bool
  | [], _ => true
  | _ :: _, [] => false
  | a :: as, b :: bs => if a = b then lexLe as bs else decide (a.toNat < b.toNat)

/-- Chronological order of ISO-8601 timestamps, as lexicographic string order. -/
def timeLe (a b : String) : Bool := lexLe a.data b.data

/-! CRUD controller models -/

/-- The JavaScript comparison `user.id === id` performed by the linear scans. -/
def idMatches (u : User) (id : JsVal) : Bool := toJs u.id == id

/-- Controller `getUserById` (`users.find((user) => user.id === id)`, throwing
`'User not found'` when there is no match). -/
def getUserById (st : List User) (id : JsVal) : Except String User :=
  match st.find? (fun u => idMatches u id) with
  | some u => .ok u
  | none => .error "User not found"

/-- Controller `createNewUser`: the spread `{ ...user, id: randomUUID(),
createdAt: new Date().toISOString(), updatedAt: new Date().toISOString() }`
pushed onto `users`. `randomUUID()` and the clock reads are the
`freshId`/`now` parameters (one instant per operation). -/
def createNewUser (freshId now : String) (st : List User) (user : User) :
    User × List User :=
  let newUser : User :=
    { user with id := some freshId, createdAt := some now, updatedAt := some now }
  (newUser, st ++ [newUser])

/-- The object spread `{ ...old, ...p, updatedAt: now }` of `updateUser`:
a key present in `p` overrides `old`'s, an absent one is preserved, and
`updatedAt` is forcibly set last. -/
def spreadUpdate (old p : User) (now : String) : User :=
  { id := p.id.or old.id, firstName := p.firstName.or old.firstName,
    lastName := p.lastName.or old.lastName, email := p.email.or old.email,
    phone := p.phone.or old.phone, createdAt := p.createdAt.or old.createdAt,
    updatedAt := some now }

/-- Controller `updateUser`: `findIndex` over the store (a linear scan for the first
`user.id === id` match), throwing `'User not found'` at `-1`; on a match the
merged record replaces the stored one at the same index. -/
def updateUser (now : String) : List User → JsVal → User →
    Except String (User × List User)
  | [], _, _ => .error "User not found"
  | u :: rest, id, p =>
    if idMatches u id then
      let r := spreadUpdate u p now
      .ok (r, r :: rest)
    else (updateUser now rest id p).map fun q => (q.1, u :: q.2)

/-- Controller `deleteUser`: `findIndex` then `splice(userIndex, 1)`, returning the
removed record; throws `'User not found'` at `-1`. -/
def deleteUser : List User → JsVal → Except String (User × List User)
  | [], _ => .error "User not found"
  | u :: rest, id =>
    if idMatches u id then .ok (u, rest)
    else (deleteUser rest id).map fun q => (q.1, u :: q.2)

/-! Route pipelines (`routes/user.ts`): validation middleware feeding the
controllers -/

/-- Viewing a sanitized body as a runtime user object (property reads of the
seven known keys). -/
def objOfList (l : List (String × String)) : User :=
  { id := lookupField l "id", firstName := lookupField l "firstName",
    lastName := lookupField l "lastName", email := lookupField l "email",
    phone := lookupField l "phone", createdAt := lookupField l "createdAt",
    updatedAt := lookupField l "updatedAt" }

/-- The two failure kinds a route can surface. -/
inductive ApiError where
  | validation : List ErrDetail → ApiError
  | notFound : String → ApiError
deriving DecidableEq, Repr

/-- Route `POST /user`: `validateRequest(userCreateSchema, 'body')` then
`createNewUser(req.body)`. -/
def createUserPipeline (freshId now : String) (st : List User)
    (body : List (String × String)) : Except (List ErrDetail) (User × List User) :=
  (validateRequest userCreateSchema body).map fun v =>
    createNewUser freshId now st (objOfList v)

/-- Route `PATCH /user/:id`: `validateRequest(userUpdateSchema, 'body')` then
`updateUser(id, req.body)`. -/
def patchUserPipeline (now : String) (st : List User) (id : JsVal)
    (body : List (String × String)) : Except ApiError (User × List User) :=
  match validateRequest userUpdateSchema body with
  | .error e => .error (.validation e)
  | .ok v =>
    match updateUser now st id (objOfList v) with
    | .error m => .error (.notFound m)
    | .ok r => .ok r

/-! Store invariants and reachable states -/

/-- Chronological order on possibly-absent timestamps (false if either is
absent). -/
def timeLeOpt (a b : Option String) : Bool :=
  match a, b with
  | some c, some m => timeLe c m
  | _, _ => false

/-- Record `u` was last written no later than `now` (vacuous when unstamped). -/
def stampedBy (u : User) (now : String) : Bool :=
  match u.updatedAt with
  | some m => timeLe m now
  | none => true

/-- The invariant the store actually maintains: id, names and both timestamps
present, `createdAt ≤ updatedAt`. (`email`/`phone` may be absent: they are
optional at creation.) -/
def RecordWF (u : User) : Prop :=
  u.id ≠ none ∧ u.firstName ≠ none ∧ u.lastName ≠ none ∧
    u.createdAt ≠ none ∧ u.updatedAt ≠ none ∧ timeLeOpt u.createdAt u.updatedAt = true

/-- Spec-side, from the spec's invariant sentence: every one of the seven
fields is populated. -/
def AllSevenPopulated (u : User) : Prop :=
  u.id ≠ none ∧ u.firstName ≠ none ∧ u.lastName ≠ none ∧ u.email ≠ none ∧
    u.phone ≠ none ∧ u.createdAt ≠ none ∧ u.updatedAt ≠ none

/-- The store invariant: pairwise distinct ids, and every record well-formed. -/
def StoreInv (st : List User) : Prop :=
  st.Pairwise (fun a b => a.id ≠ b.id) ∧ ∀ u ∈ st, RecordWF u

/-- One CRUD mutation as the routes perform it (validated payloads), under the
spec's environment assumptions: generated ids are fresh and the clock is
monotone (each operation's `now` is at or after every stored write). -/
inductive Step : List User → List User → Prop where
  | create (freshId now : String) (body v : List (String × String)) (st : List User) :
      validateRequest userCreateSchema body = .ok v →
      (∀ u ∈ st, u.id ≠ some freshId) →
      (∀ u ∈ st, stampedBy u now = true) →
      Step st (createNewUser freshId now st (objOfList v)).2
  | update (now : String) (id : JsVal) (body v : List (String × String))
      (st : List User) (r : User × List User) :
      validateRequest userUpdateSchema body = .ok v →
      (∀ u ∈ st, stampedBy u now = true) →
      updateUser now st id (objOfList v) = .ok r →
      Step st r.2
  | delete (id : JsVal) (st : List User) (r : User × List User) :
      deleteUser st id = .ok r →
      Step st r.2

/-- Store states reachable from the seeded collection by Create/Update/Delete. -/
def Reachable (st : List User) : Prop := Relation.ReflTransGen Step users st

instance (u : User) : Decidable (RecordWF u) := by unfold RecordWF; infer_instance

instance (u : User) : Decidable (AllSevenPopulated u) := by
  unfold AllSevenPopulated; infer_instance

instance (st : List User) : Decidable (StoreInv st) := by
  unfold StoreInv; infer_instance

/-! Helper lemmas about the validation layer -/

theorem lookupField_cons (k v : String) (l : List (String × String)) (name : String) :
    lookupField ((k, v) :: l) name = if k = name then some v else lookupField l name := by
  by_cases h : k = name
  · simp [lookupField, List.find?, h]
  · have hb : (k == name) = false := beq_eq_false_iff_ne.mpr h
    simp [lookupField, List.find?, hb, h]

/-- Sanitized output, described directly: the declared fields that are present
in the input, keyed by their declared names, in declaration order. -/
def sanitize : List FieldSpec → List (String × String) → List (String × String)
  | [], _ => []
  | f :: rest, input =>
    match lookupField input f.name with
    | none => sanitize rest input
    | some v => (f.name, v) :: sanitize rest input

theorem validateFields_snd (s : List FieldSpec) (input : List (String × String)) :
    (validateFields s input).2 = sanitize s input := by
  induction s with
  | nil => rfl
  | cons f rest ih =>
    simp only [validateFields, sanitize]
    cases hl : lookupField input f.name with
    | none => simpa using ih
    | some v => simpa using ih

theorem mem_sanitize_name {s : List FieldSpec} {input : List (String × String)}
    {kv : String × String} (h : kv ∈ sanitize s input) : kv.1 ∈ s.map (·.name) := by
  induction s with
  | nil => simp [sanitize] at h
  | cons f rest ih =>
    simp only [sanitize] at h
    cases hl : lookupField input f.name with
    | none =>
      rw [hl] at h
      exact List.mem_cons_of_mem _ (ih h)
    | some v =>
      rw [hl] at h
      rcases List.mem_cons.mp h with h1 | h2
      · subst h1; simp
      · exact List.mem_cons_of_mem _ (ih h2)

theorem lookupField_sanitize {s : List FieldSpec} (input : List (String × String))
    (name : String) (hnd : (s.map (·.name)).Nodup) :
    lookupField (sanitize s input) name =
      if name ∈ s.map (·.name) then lookupField input name else none := by
  induction s with
  | nil => simp [sanitize, lookupField]
  | cons f rest ih =>
    simp only [List.map_cons, List.nodup_cons] at hnd
    obtain ⟨hf, hrest⟩ := hnd
    have IH := ih hrest
    cases hl : lookupField input f.name with
    | none =>
      by_cases hn : name = f.name
      · subst hn
        simp only [sanitize, hl, IH]
        simp [hf, hl]
      · have hn2 : ¬name ∈ List.map (fun x => x.name) (f :: rest) ↔
            ¬name ∈ List.map (fun x => x.name) rest := by
          simp [List.mem_cons, hn]
        simp only [sanitize, hl, IH]
        by_cases hm : name ∈ List.map (fun x => x.name) rest <;>
          simp [hm, List.mem_cons, hn]
    | some v =>
      by_cases hn : name = f.name
      · subst hn
        simp [sanitize, hl, lookupField_cons]
      · have hn2 : f.name ≠ name := fun e => hn e.symm
        simp only [sanitize, hl, lookupField_cons, if_neg hn2, IH]
        by_cases hm : name ∈ List.map (fun x => x.name) rest <;>
          simp [hm, List.mem_cons, hn]

theorem validateRequest_ok_iff {s : List FieldSpec} {input v : List (String × String)} :
    validateRequest s input = .ok v ↔
      (validateFields s input).1 = [] ∧ v = (validateFields s input).2 := by
  unfold validateRequest
  cases he : (validateFields s input).1 with
  | nil => simp [he, eq_comm]
  | cons a t => simp [he]

/-- Violations of one declared field, in rule order: `any.required` for a
missing required field; for a present value, `string.empty` or the failing
rule checks. -/
def fieldErrors (input : List (String × String)) (f : FieldSpec) : List ErrDetail :=
  match lookupField input f.name with
  | none => if f.required then [⟨f.name, requiredMessage f.name⟩] else []
  | some v =>
    if v = "" then [⟨f.name, emptyMessage f.name⟩]
    else (f.checks.filter fun c => !c.check v).map fun c => ⟨f.name, c.message⟩

theorem validateFields_fst (s : List FieldSpec) (input : List (String × String)) :
    (validateFields s input).1 = (s.map (fieldErrors input)).flatten := by
  induction s with
  | nil => rfl
  | cons f rest ih =>
    simp only [validateFields, fieldErrors, List.map_cons, List.flatten_cons]
    cases hl : lookupField input f.name with
    | none => cases hr : f.required <;> simp [hr, ih]
    | some v => by_cases hv : v = "" <;> simp [hv, ih]

/-- Everything Joi checks about one declared field, as one boolean: a missing
field is fine unless required; a present one must be non-empty and pass every
rule. -/
def fieldOk (input : List (String × String)) (f : FieldSpec) : Bool :=
  match lookupField input f.name with
  | none => !f.required
  | some v => v != "" && f.checks.all fun c => c.check v

theorem fieldErrors_eq_nil_iff (input : List (String × String)) (f : FieldSpec) :
    fieldErrors input f = [] ↔ fieldOk input f = true := by
  unfold fieldErrors fieldOk
  cases hl : lookupField input f.name with
  | none => cases hr : f.required <;> simp [hr]
  | some v =>
    by_cases hv : v = ""
    · simp [hv]
    · simp only [if_neg hv, List.map_eq_nil_iff, List.filter_eq_nil_iff,
        Bool.not_eq_true', Bool.and_eq_true, bne_iff_ne, ne_eq, List.all_eq_true]
      constructor
      · intro h
        exact ⟨hv, fun c hc => by simpa using h c hc⟩
      · intro h c hc
        simp [h.2 c hc]

theorem validateFields_fst_nil_iff (s : List FieldSpec) (input : List (String × String)) :
    (validateFields s input).1 = [] ↔ ∀ f ∈ s, fieldOk input f = true := by
  rw [validateFields_fst]
  rw [List.flatten_eq_nil_iff]
  constructor
  · intro h f hf
    exact (fieldErrors_eq_nil_iff input f).mp (h _ (List.mem_map_of_mem _ hf))
  · intro h e he
    rcases List.mem_map.mp he with ⟨f, hf, rfl⟩
    exact (fieldErrors_eq_nil_iff input f).mpr (h f hf)

theorem validateFields_required {s : List FieldSpec} {input : List (String × String)}
    (h : (validateFields s input).1 = []) {f : FieldSpec} (hf : f ∈ s)
    (hr : f.required = true) : ∃ v, lookupField input f.name = some v ∧ v ≠ "" := by
  have hok := (validateFields_fst_nil_iff s input).mp h f hf
  unfold fieldOk at hok
  cases hl : lookupField input f.name with
  | none => rw [hl] at hok; simp [hr] at hok
  | some v =>
    rw [hl] at hok
    simp only [Bool.and_eq_true, bne_iff_ne, ne_eq] at hok
    exact ⟨v, rfl, hok.1⟩

/-! Helper lemmas about the lexicographic timestamp order -/

theorem lexLe_refl (l : List Char) : lexLe l l = true := by
  induction l with
  | nil => rfl
  | cons c cs ih => simp [lexLe, ih]

theorem lexLe_trans {a b c : List Char} (h1 : lexLe a b = true)
    (h2 : lexLe b c = true) : lexLe a c = true := by
  induction a generalizing b c with
  | nil => simp [lexLe]
  | cons x xs ih =>
    cases b with
    | nil => simp [lexLe] at h1
    | cons y ys =>
      cases c with
      | nil => simp [lexLe] at h2
      | cons z zs =>
        simp only [lexLe] at h1 h2 ⊢
        by_cases hxy : x = y
        · subst hxy
          rw [if_pos rfl] at h1
          by_cases hyz : x = z
          · subst hyz
            rw [if_pos rfl] at h2 ⊢
            exact ih h1 h2
          · rw [if_neg hyz] at h2 ⊢
            exact h2
        · rw [if_neg hxy] at h1
          by_cases hyz : y = z
          · subst hyz
            rw [if_neg hxy]
            exact h1
          · rw [if_neg hyz] at h2
            have hxz : x.toNat < z.toNat :=
              Nat.lt_trans (of_decide_eq_true h1) (of_decide_eq_true h2)
            have hne : x ≠ z := by
              intro e
              subst e
              exact absurd hxz (lt_irrefl _)
            rw [if_neg hne]
            exact decide_eq_true hxz

theorem timeLe_refl (a : String) : timeLe a a = true := lexLe_refl a.data

theorem timeLe_trans {a b c : String} (h1 : timeLe a b = true)
    (h2 : timeLe b c = true) : timeLe a c = true := lexLe_trans h1 h2

/-! Helper lemmas about the CRUD controllers -/

theorem toJs_inj {a b : Option String} (h : toJs a = toJs b) : a = b := by
  cases a <;> cases b <;> simp [toJs] at h <;> simp [h]

theorem idMatches_str {u : User} {s : String} :
    idMatches u (.str s) = true ↔ u.id = some s := by
  cases h : u.id <;> simp [idMatches, toJs, h]

theorem idMatches_eq_id {u w : User} {idv : JsVal} (hu : idMatches u idv = true)
    (hw : idMatches w idv = true) : u.id = w.id := by
  unfold idMatches at hu hw
  have h1 : toJs u.id = idv := by simpa using hu
  have h2 : toJs w.id = idv := by simpa using hw
  exact toJs_inj (h1.trans h2.symm)

theorem idMatches_of_id_some {u : User} {idv : JsVal} {s : String}
    (hid : u.id = some s) (hm : idMatches u idv = true) : idv = .str s := by
  unfold idMatches at hm
  have h1 : toJs u.id = idv := by simpa using hm
  rw [hid] at h1
  exact h1.symm ▸ rfl

theorem getUserById_error_iff {st : List User} {idv : JsVal} :
    getUserById st idv = .error "User not found" ↔
      ∀ u ∈ st, idMatches u idv = false := by
  unfold getUserById
  cases hf : st.find? (fun u => idMatches u idv) with
  | none =>
    constructor
    · intro _ u hu
      simpa using List.find?_eq_none.mp hf u hu
    · intro _
      rfl
  | some u =>
    have hp := List.find?_some hf
    have hmem := List.mem_of_find?_eq_some hf
    constructor
    · intro h
      exact Except.noConfusion h
    · intro h
      simp [h u hmem] at hp

theorem getUserById_ok_iff {st : List User} {idv : JsVal} :
    (∃ u, getUserById st idv = .ok u) ↔ ∃ u ∈ st, idMatches u idv = true := by
  unfold getUserById
  cases hf : st.find? (fun u => idMatches u idv) with
  | none =>
    constructor
    · rintro ⟨u, hu⟩
      exact Except.noConfusion hu
    · rintro ⟨u, hu, hm⟩
      have := List.find?_eq_none.mp hf u hu
      simp [hm] at this
  | some u =>
    have hp := List.find?_some hf
    have hmem := List.mem_of_find?_eq_some hf
    constructor
    · rintro ⟨w, _⟩
      exact ⟨u, hmem, hp⟩
    · intro _
      exact ⟨u, rfl⟩

theorem updateUser_append (now : String) (pre post : List User) (old p : User)
    (idv : JsVal) (hpre : ∀ u ∈ pre, idMatches u idv = false)
    (hold : idMatches old idv = true) :
    updateUser now (pre ++ old :: post) idv p =
      .ok (spreadUpdate old p now, pre ++ spreadUpdate old p now :: post) := by
  induction pre with
  | nil => simp [updateUser, hold]
  | cons u rest ih =>
    have hu : idMatches u idv = false := hpre u (List.mem_cons_self u rest)
    have ih2 := ih fun w hw => hpre w (List.mem_cons_of_mem u hw)
    simp [updateUser, hu, ih2, Except.map]

theorem updateUser_ok_inv {now : String} {st st' : List User} {idv : JsVal}
    {p r : User} (h : updateUser now st idv p = .ok (r, st')) :
    ∃ pre old post, st = pre ++ old :: post ∧
      (∀ u ∈ pre, idMatches u idv = false) ∧ idMatches old idv = true ∧
      r = spreadUpdate old p now ∧ st' = pre ++ r :: post := by
  induction st generalizing st' with
  | nil => exact absurd h (by simp [updateUser])
  | cons u rest ih =>
    by_cases hm : idMatches u idv = true
    · rw [updateUser, if_pos hm] at h
      obtain ⟨h1, h2⟩ : spreadUpdate u p now = r ∧ spreadUpdate u p now :: rest = st' := by
        simpa using h
      exact ⟨[], u, rest, by simp, by simp, hm, h1.symm, by simp [← h2, h1]⟩
    · have hm2 : idMatches u idv = false := by simpa using hm
      rw [updateUser, if_neg (by simp [hm2])] at h
      cases hrec : updateUser now rest idv p with
      | error e =>
        rw [hrec] at h
        exact Except.noConfusion h
      | ok q =>
        rw [hrec] at h
        obtain ⟨h1, h2⟩ : q.1 = r ∧ u :: q.2 = st' := by
          simpa [Except.map] using h
        have hq : updateUser now rest idv p = .ok (q.1, q.2) := by
          rw [hrec]
        obtain ⟨pre, old, post, hq1, hq2, hq3, hq4, hq5⟩ := ih (h1 ▸ hq)
        exact ⟨u :: pre, old, post, by simp [hq1], by
            intro w hw
            rcases List.mem_cons.mp hw with rfl | hw2
            · exact hm2
            · exact hq2 w hw2,
          hq3, hq4, by simp [← h2, hq5]⟩

theorem updateUser_error_iff {now : String} {st : List User} {idv : JsVal} {p : User} :
    updateUser now st idv p = .error "User not found" ↔
      ∀ u ∈ st, idMatches u idv = false := by
  induction st with
  | nil => simp [updateUser]
  | cons u rest ih =>
    by_cases hm : idMatches u idv = true
    · simp [updateUser, hm]
    · have hm2 : idMatches u idv = false := by simpa using hm
      rw [updateUser, if_neg (by simp [hm2])]
      cases hrec : updateUser now rest idv p with
      | error e =>
        rw [hrec] at ih
        simp only [Except.map]
        constructor
        · intro h
          intro w hw
          rcases List.mem_cons.mp hw with rfl | hw2
          · exact hm2
          · exact ih.mp (by simpa using h) w hw2
        · intro h
          simpa using ih.mpr fun w hw => h w (List.mem_cons_of_mem u hw)
      | ok q =>
        rw [hrec] at ih
        simp only [Except.map]
        constructor
        · intro h
          exact Except.noConfusion h
        · intro h
          have := ih.mpr fun w hw => h w (List.mem_cons_of_mem u hw)
          exact Except.noConfusion this

theorem deleteUser_append (pre post : List User) (old : User) (idv : JsVal)
    (hpre : ∀ u ∈ pre, idMatches u idv = false) (hold : idMatches old idv = true) :
    deleteUser (pre ++ old :: post) idv = .ok (old, pre ++ post) := by
  induction pre with
  | nil => simp [deleteUser, hold]
  | cons u rest ih =>
    have hu : idMatches u idv = false := hpre u (List.mem_cons_self u rest)
    have ih2 := ih fun w hw => hpre w (List.mem_cons_of_mem u hw)
    simp [deleteUser, hu, ih2, Except.map]

theorem deleteUser_ok_inv {st st' : List User} {idv : JsVal} {d : User}
    (h : deleteUser st idv = .ok (d, st')) :
    ∃ pre post, st = pre ++ d :: post ∧
      (∀ u ∈ pre, idMatches u idv = false) ∧ idMatches d idv = true ∧
      st' = pre ++ post := by
  induction st generalizing st' with
  | nil => exact absurd h (by simp [deleteUser])
  | cons u rest ih =>
    by_cases hm : idMatches u idv = true
    · rw [deleteUser, if_pos hm] at h
      obtain ⟨h1, h2⟩ : u = d ∧ rest = st' := by simpa using h
      subst h1
      exact ⟨[], rest, by simp, by simp, hm, by simp [h2]⟩
    · have hm2 : idMatches u idv = false := by simpa using hm
      rw [deleteUser, if_neg (by simp [hm2])] at h
      cases hrec : deleteUser rest idv with
      | error e =>
        rw [hrec] at h
        exact Except.noConfusion h
      | ok q =>
        rw [hrec] at h
        obtain ⟨h1, h2⟩ : q.1 = d ∧ u :: q.2 = st' := by
          simpa [Except.map] using h
        have hq : deleteUser rest idv = .ok (q.1, q.2) := by
          rw [hrec]
        obtain ⟨pre, post, hq1, hq2, hq3, hq4⟩ := ih (h1 ▸ hq)
        exact ⟨u :: pre, post, by simp [hq1], by
            intro w hw
            rcases List.mem_cons.mp hw with rfl | hw2
            · exact hm2
            · exact hq2 w hw2,
          hq3, by simp [← h2, hq4]⟩

theorem deleteUser_error_iff {st : List User} {idv : JsVal} :
    deleteUser st idv = .error "User not found" ↔
      ∀ u ∈ st, idMatches u idv = false := by
  induction st with
  | nil => simp [deleteUser]
  | cons u rest ih =>
    by_cases hm : idMatches u idv = true
    · simp [deleteUser, hm]
    · have hm2 : idMatches u idv = false := by simpa using hm
      rw [deleteUser, if_neg (by simp [hm2])]
      cases hrec : deleteUser rest idv with
      | error e =>
        rw [hrec] at ih
        simp only [Except.map]
        constructor
        · intro h
          intro w hw
          rcases List.mem_cons.mp hw with rfl | hw2
          · exact hm2
          · exact ih.mp (by simpa using h) w hw2
        · intro h
          simpa using ih.mpr fun w hw => h w (List.mem_cons_of_mem u hw)
      | ok q =>
        rw [hrec] at ih
        simp only [Except.map]
        constructor
        · intro h
          exact Except.noConfusion h
        · intro h
          have := ih.mpr fun w hw => h w (List.mem_cons_of_mem u hw)
          exact Except.noConfusion this

theorem exists_first_match {st : List User} {idv : JsVal}
    (h : ∃ u ∈ st, idMatches u idv = true) :
    ∃ pre d post, st = pre ++ d :: post ∧
      (∀ u ∈ pre, idMatches u idv = false) ∧ idMatches d idv = true := by
  induction st with
  | nil => simp at h
  | cons u rest ih =>
    by_cases hm : idMatches u idv = true
    · exact ⟨[], u, rest, by simp, by simp, hm⟩
    · have hm2 : idMatches u idv = false := by simpa using hm
      have hrest : ∃ w ∈ rest, idMatches w idv = true := by
        rcases h with ⟨w, hw, hwm⟩
        rcases List.mem_cons.mp hw with rfl | hw2
        · exact absurd hwm hm
        · exact ⟨w, hw2, hwm⟩
      obtain ⟨pre, d, post, h1, h2, h3⟩ := ih hrest
      exact ⟨u :: pre, d, post, by simp [h1], by
          intro w hw
          rcases List.mem_cons.mp hw with rfl | hw2
          · exact hm2
          · exact h2 w hw2,
        h3⟩

/-! Facts about the two body schemas and their sanitized outputs -/

theorem userUpdateSchema_names :
    userUpdateSchema.map (·.name) = ["firstName", "lastName", "email", "phone"] := rfl

theorem userCreateSchema_names :
    userCreateSchema.map (·.name) = ["firstName", "lastName", "email", "phone"] := rfl

theorem objOfList_update_ok {body v : List (String × String)}
    (h : validateRequest userUpdateSchema body = .ok v) :
    (objOfList v).id = none ∧ (objOfList v).createdAt = none ∧
      (objOfList v).updatedAt = none := by
  obtain ⟨_, hv⟩ := validateRequest_ok_iff.mp h
  have hs : v = sanitize userUpdateSchema body := by
    rw [hv, validateFields_snd]
  have hnd : (userUpdateSchema.map (·.name)).Nodup := by
    rw [userUpdateSchema_names]; decide
  refine ⟨?_, ?_, ?_⟩ <;>
    · show lookupField v _ = none
      rw [hs, lookupField_sanitize body _ hnd, userUpdateSchema_names]
      simp

theorem userCreateSchema_eq : userCreateSchema =
    [⟨"firstName", true, []⟩, ⟨"lastName", true, []⟩,
     ⟨"email", false, [emailRule]⟩, ⟨"phone", false, [phoneRule]⟩] := rfl

theorem objOfList_create_ok {body v : List (String × String)}
    (h : validateRequest userCreateSchema body = .ok v) :
    (∃ a, (objOfList v).firstName = some a ∧ a ≠ "") ∧
      (∃ b, (objOfList v).lastName = some b ∧ b ≠ "") ∧
      (objOfList v).id = none ∧ (objOfList v).createdAt = none ∧
      (objOfList v).updatedAt = none := by
  obtain ⟨hnil, hv⟩ := validateRequest_ok_iff.mp h
  have hs : v = sanitize userCreateSchema body := by
    rw [hv, validateFields_snd]
  have hnd : (userCreateSchema.map (·.name)).Nodup := by
    rw [userCreateSchema_names]; decide
  have hlook : ∀ name, name ∈ userCreateSchema.map (·.name) →
      lookupField v name = lookupField body name := by
    intro name hm
    rw [hs, lookupField_sanitize body _ hnd, if_pos hm]
  refine ⟨?_, ?_, ?_, ?_, ?_⟩
  · obtain ⟨a, ha, hane⟩ := validateFields_required hnil
      (f := ⟨"firstName", true, []⟩)
      (by rw [userCreateSchema_eq]; exact List.mem_cons_self _ _) rfl
    refine ⟨a, ?_, hane⟩
    show lookupField v "firstName" = some a
    rw [hlook "firstName" (by rw [userCreateSchema_names]; decide)]
    exact ha
  · obtain ⟨b, hb, hbne⟩ := validateFields_required hnil
      (f := ⟨"lastName", true, []⟩)
      (by rw [userCreateSchema_eq]
          exact List.mem_cons_of_mem _ (List.mem_cons_self _ _)) rfl
    refine ⟨b, ?_, hbne⟩
    show lookupField v "lastName" = some b
    rw [hlook "lastName" (by rw [userCreateSchema_names]; decide)]
    exact hb
  all_goals
    show lookupField v _ = none
    rw [hs, lookupField_sanitize body _ hnd, userCreateSchema_names]
    simp

/-- The record `createNewUser` builds from a sanitized body: the spread of the
body under the generated id and the two timestamps. -/
def newUserOf (freshId now : String) (v : List (String × String)) : User :=
  { objOfList v with
    id := some freshId
    createdAt := some now
    updatedAt := some now }

/-! Preservation of the store invariant -/

theorem pairwise_ids_replace {pre post : List User} {old r : User}
    (h : (pre ++ old :: post).Pairwise (fun a b => a.id ≠ b.id))
    (hid : r.id = old.id) :
    (pre ++ r :: post).Pairwise (fun a b => a.id ≠ b.id) := by
  rw [List.pairwise_append] at h ⊢
  obtain ⟨h1, h2, h3⟩ := h
  rw [List.pairwise_cons] at h2 ⊢
  refine ⟨h1, ⟨?_, h2.2⟩, ?_⟩
  · intro b hb
    rw [hid]
    exact h2.1 b hb
  · intro a ha b hb
    rcases List.mem_cons.mp hb with rfl | hb2
    · rw [hid]
      exact h3 a ha old (List.mem_cons_self _ _)
    · exact h3 a ha b (List.mem_cons_of_mem _ hb2)

theorem or_ne_none {a b : Option String} (hb : b ≠ none) : a.or b ≠ none := by
  cases a <;> simp [Option.or, hb]

theorem recordWF_spreadUpdate {old p : User} {now : String} (hwf : RecordWF old)
    (hstamp : stampedBy old now = true) (hca : p.createdAt = none) :
    RecordWF (spreadUpdate old p now) := by
  obtain ⟨hid, hfn, hln, hca2, hua2, hord⟩ := hwf
  refine ⟨or_ne_none hid, or_ne_none hfn, or_ne_none hln, ?_, ?_, ?_⟩
  · show p.createdAt.or old.createdAt ≠ none
    exact or_ne_none hca2
  · show (some now : Option String) ≠ none
    simp
  · show timeLeOpt (p.createdAt.or old.createdAt) (some now) = true
    rw [hca, Option.none_or]
    cases hc : old.createdAt with
    | none => exact absurd hc hca2
    | some c =>
      cases hm : old.updatedAt with
      | none => exact absurd hm hua2
      | some m =>
        rw [hc, hm] at hord
        unfold stampedBy at hstamp
        rw [hm] at hstamp
        exact timeLe_trans (a := c) (b := m) hord hstamp

theorem storeInv_step {st st' : List User} (hinv : StoreInv st) (h : Step st st') :
    StoreInv st' := by
  cases h with
  | create freshId now body v st hval hfresh hclock =>
    have hred : (createNewUser freshId now st (objOfList v)).2 =
        st ++ [newUserOf freshId now v] := rfl
    rw [hred]
    obtain ⟨⟨a, ha, _⟩, ⟨b, hb, _⟩, _, _, _⟩ := objOfList_create_ok hval
    constructor
    · rw [List.pairwise_append]
      refine ⟨hinv.1, List.pairwise_singleton _ _, ?_⟩
      intro x hx y hy
      rw [List.mem_singleton] at hy
      subst hy
      show x.id ≠ some freshId
      exact hfresh x hx
    · intro u hu
      rw [List.mem_append, List.mem_singleton] at hu
      rcases hu with hu | rfl
      · exact hinv.2 u hu
      · refine ⟨?_, ?_, ?_, ?_, ?_, ?_⟩
        · show (some freshId : Option String) ≠ none
          simp
        · show (objOfList v).firstName ≠ none
          rw [ha]
          simp
        · show (objOfList v).lastName ≠ none
          rw [hb]
          simp
        · show (some now : Option String) ≠ none
          simp
        · show (some now : Option String) ≠ none
          simp
        · show timeLe now now = true
          exact timeLe_refl now
  | update now idv body v st r hval hclock hupd =>
    obtain ⟨pre, old, post, hst, hpre, hold, hr1, hr2⟩ := updateUser_ok_inv hupd
    obtain ⟨hpid, hpca, hpua⟩ := objOfList_update_ok hval
    subst hst
    have holdmem : old ∈ pre ++ old :: post := by simp
    have holdwf : RecordWF old := hinv.2 old holdmem
    have hridold : r.1.id = old.id := by
      rw [hr1]
      show (objOfList v).id.or old.id = old.id
      rw [hpid, Option.none_or]
    rw [hr2]
    constructor
    · exact pairwise_ids_replace hinv.1 hridold
    · intro u hu
      rw [List.mem_append, List.mem_cons] at hu
      rcases hu with hu | hu | hu
      · exact hinv.2 u (by simp [hu])
      · subst hu
        rw [hr1]
        exact recordWF_spreadUpdate holdwf (hclock old holdmem) hpca
      · exact hinv.2 u (by simp [hu])
  | delete idv st r hdel =>
    obtain ⟨pre, post, hst, _, _, hst'⟩ := deleteUser_ok_inv hdel
    subst hst
    rw [hst']
    have hsub : (pre ++ post).Sublist (pre ++ r.1 :: post) :=
      (List.Sublist.refl pre).append (List.sublist_cons_self r.1 post)
    exact ⟨hinv.1.sublist hsub, fun u hu => hinv.2 u (hsub.mem hu)⟩

/-! Sample records used by the witnesses -/

/-- A complete sample record. -/
def alice : User :=
  { id := some "11111111-1111-4111-8111-111111111111", firstName := some "Alice",
    lastName := some "Smith", email := some "alice@example.com",
    phone := some "+1-555-000-1111", createdAt := some "2024-01-01T00:00:00.000Z",
    updatedAt := some "2024-01-01T00:00:00.000Z" }

/-- A second complete sample record. -/
def bob : User :=
  { id := some "22222222-2222-4222-8222-222222222222", firstName := some "Bob",
    lastName := some "Jones", email := some "bob@example.com",
    phone := some "+1-555-000-2222", createdAt := some "2024-01-02T00:00:00.000Z",
    updatedAt := some "2024-01-02T00:00:00.000Z" }

/-- What a malicious patch of `alice` actually produces: only the legitimate
field and `updatedAt` change. -/
def patchedAlice : User :=
  { alice with
    firstName := some "Robert"
    updatedAt := some "2024-06-01T00:00:00.000Z" }

/-- A one-field update payload. -/
def johnnyPatch : User := { firstName := some "Johnny" }

/-! Claim theorems -/

/-- C10: For every input to Create, even one that already contains `id`,
`createdAt`, or `updatedAt` fields, the record Create returns and stores
carries the freshly generated id and current-time timestamps: caller-supplied
values for these three fields never take effect, because the generated values
are applied after the input fields in the merge. -/
theorem create_overrides_protected_fields (freshId now : String) (st : List User)
    (input : User) :
    (createNewUser freshId now st input).1.id = some freshId ∧
      (createNewUser freshId now st input).1.createdAt = some now ∧
      (createNewUser freshId now st input).1.updatedAt = some now ∧
      (createNewUser freshId now st input).2 =
        st ++ [(createNewUser freshId now st input).1] :=
  ⟨rfl, rfl, rfl, rfl⟩

/-- C4: Validation checks every declared field and returns the full list of
violations rather than stopping at the first one; the violation list is
exactly the concatenation, in field declaration order, of each field's
violations (so multiple violations of one field are adjacent). In particular,
validating the firstName/lastName/email/phone payload with bad email and
phone against the user-create schema fails with exactly two detail entries,
whose paths are `email` and `phone` in that order. -/
theorem validation_collects_all_violations :
    (∀ (s : List FieldSpec) (input : List (String × String)),
        (validateFields s input).1 = (s.map (fieldErrors input)).flatten) ∧
      validateRequest userCreateSchema
          [("firstName", "Alice"), ("lastName", "Johnson"),
           ("email", "bad"), ("phone", "bad")] =
        .error [⟨"email", "Invalid email address"⟩,
                ⟨"phone", "Invalid phone number"⟩] :=
  ⟨validateFields_fst, rfl⟩

/-- C1: For every store state and every record in it with identifier id, and
for every update payload — including one that contains `id` and/or
`createdAt` fields — the PATCH pipeline (update-schema validation, then
`updateUser`) returns and stores a record whose `id` and `createdAt` equal
those of the pre-existing record; caller-supplied `id`/`createdAt` values
never take effect, because the update schema does not carry them and
`stripUnknown` drops them. -/
theorem update_never_changes_id_createdAt (now : String) (pre post : List User)
    (old : User) (idv : JsVal) (body : List (String × String)) (r : User)
    (st' : List User) (hpre : ∀ u ∈ pre, idMatches u idv = false)
    (hold : idMatches old idv = true)
    (h : patchUserPipeline now (pre ++ old :: post) idv body = .ok (r, st')) :
    r.id = old.id ∧ r.createdAt = old.createdAt ∧ st' = pre ++ r :: post := by
  unfold patchUserPipeline at h
  cases hv : validateRequest userUpdateSchema body with
  | error e =>
    rw [hv] at h
    exact Except.noConfusion h
  | ok v =>
    rw [hv] at h
    dsimp only at h
    rw [updateUser_append now pre post old (objOfList v) idv hpre hold] at h
    obtain ⟨h1, h2⟩ : spreadUpdate old (objOfList v) now = r ∧
        pre ++ spreadUpdate old (objOfList v) now :: post = st' := by
      simpa using h
    obtain ⟨hid, hca, _⟩ := objOfList_update_ok hv
    subst h1
    refine ⟨?_, ?_, h2.symm⟩
    · show (objOfList v).id.or old.id = old.id
      rw [hid, Option.none_or]
    · show (objOfList v).createdAt.or old.createdAt = old.createdAt
      rw [hca, Option.none_or]

/-- Witness for C1: patching `alice` with a body that smuggles `id` and
`createdAt` leaves her id and creation time untouched. -/
theorem update_never_changes_id_createdAt_witness :
    patchedAlice.id = alice.id ∧ patchedAlice.createdAt = alice.createdAt ∧
      [patchedAlice] = [] ++ patchedAlice :: [] :=
  update_never_changes_id_createdAt "2024-06-01T00:00:00.000Z" [] [] alice
    (.str "11111111-1111-4111-8111-111111111111")
    [("id", "intruder"), ("createdAt", "1900-01-01T00:00:00.000Z"),
     ("firstName", "Robert")]
    patchedAlice [patchedAlice] (by decide) (by decide) rfl

/-- C2: For every store containing a record with identifier id and every
partial payload over firstName/lastName/email/phone, `updateUser` stores, at
the same index as the old record with all other records and their order
unchanged, and returns, a record whose fields present in the payload take the
payload values, whose absent fields keep the old record values, and whose
`updatedAt` equals the current time — even when the payload is empty. -/
theorem update_merge_semantics (now : String) (pre post : List User)
    (old p : User) (idv : JsVal) (hpre : ∀ u ∈ pre, idMatches u idv = false)
    (hold : idMatches old idv = true) (hid : p.id = none)
    (hca : p.createdAt = none) (hua : p.updatedAt = none) :
    ∃ r, updateUser now (pre ++ old :: post) idv p = .ok (r, pre ++ r :: post) ∧
      r.updatedAt = some now ∧
      (∀ s, p.firstName = some s → r.firstName = some s) ∧
      (p.firstName = none → r.firstName = old.firstName) ∧
      (∀ s, p.lastName = some s → r.lastName = some s) ∧
      (p.lastName = none → r.lastName = old.lastName) ∧
      (∀ s, p.email = some s → r.email = some s) ∧
      (p.email = none → r.email = old.email) ∧
      (∀ s, p.phone = some s → r.phone = some s) ∧
      (p.phone = none → r.phone = old.phone) ∧
      r.id = old.id ∧ r.createdAt = old.createdAt := by
  refine ⟨spreadUpdate old p now,
    updateUser_append now pre post old p idv hpre hold, rfl,
    ?_, ?_, ?_, ?_, ?_, ?_, ?_, ?_, ?_, ?_⟩
  · intro s hs
    show p.firstName.or old.firstName = some s
    rw [hs]
    rfl
  · intro hs
    show p.firstName.or old.firstName = old.firstName
    rw [hs, Option.none_or]
  · intro s hs
    show p.lastName.or old.lastName = some s
    rw [hs]
    rfl
  · intro hs
    show p.lastName.or old.lastName = old.lastName
    rw [hs, Option.none_or]
  · intro s hs
    show p.email.or old.email = some s
    rw [hs]
    rfl
  · intro hs
    show p.email.or old.email = old.email
    rw [hs, Option.none_or]
  · intro s hs
    show p.phone.or old.phone = some s
    rw [hs]
    rfl
  · intro hs
    show p.phone.or old.phone = old.phone
    rw [hs, Option.none_or]
  · show p.id.or old.id = old.id
    rw [hid, Option.none_or]
  · show p.createdAt.or old.createdAt = old.createdAt
    rw [hca, Option.none_or]

/-- Witness for C2: updating `alice` (first of two records) with a one-field
payload. -/
theorem update_merge_semantics_witness :
    ∃ r, updateUser "2024-06-01T00:00:00.000Z" ([] ++ alice :: [bob])
        (.str "11111111-1111-4111-8111-111111111111") johnnyPatch =
          .ok (r, [] ++ r :: [bob]) ∧
      r.updatedAt = some "2024-06-01T00:00:00.000Z" ∧
      (∀ s, johnnyPatch.firstName = some s → r.firstName = some s) ∧
      (johnnyPatch.firstName = none → r.firstName = alice.firstName) ∧
      (∀ s, johnnyPatch.lastName = some s → r.lastName = some s) ∧
      (johnnyPatch.lastName = none → r.lastName = alice.lastName) ∧
      (∀ s, johnnyPatch.email = some s → r.email = some s) ∧
      (johnnyPatch.email = none → r.email = alice.email) ∧
      (∀ s, johnnyPatch.phone = some s → r.phone = some s) ∧
      (johnnyPatch.phone = none → r.phone = alice.phone) ∧
      r.id = alice.id ∧ r.createdAt = alice.createdAt :=
  update_merge_semantics "2024-06-01T00:00:00.000Z" [] [bob] alice johnnyPatch
    (.str "11111111-1111-4111-8111-111111111111") (by decide) (by decide)
    rfl rfl rfl

/-- Extra schema facts used by the remaining claims. -/
theorem userUpdateSchema_eq : userUpdateSchema =
    [⟨"firstName", false, []⟩, ⟨"lastName", false, []⟩,
     ⟨"email", false, [emailRule]⟩, ⟨"phone", false, [phoneRule]⟩] := rfl

theorem fieldOk_plain (input : List (String × String)) (name : String) :
    fieldOk input ⟨name, false, []⟩ = true ↔
      ∀ s, lookupField input name = some s → s ≠ "" := by
  unfold fieldOk
  cases h : lookupField input name with
  | none => simp
  | some v => simp

theorem fieldOk_single (input : List (String × String)) (name : String)
    (rule : FieldCheck) :
    fieldOk input ⟨name, false, [rule]⟩ = true ↔
      ∀ s, lookupField input name = some s → s ≠ "" ∧ rule.check s = true := by
  unfold fieldOk
  cases h : lookupField input name with
  | none => simp
  | some v => simp [and_comm]

theorem find?_append_of_none {α : Type} {l₁ l₂ : List α} {p : α → Bool}
    (h : l₁.find? p = none) : (l₁ ++ l₂).find? p = l₂.find? p := by
  induction l₁ with
  | nil => rfl
  | cons a t ih =>
    cases hpa : p a with
    | true => simp [List.find?, hpa] at h
    | false =>
      simp only [List.find?, hpa] at h
      simp only [List.cons_append, List.find?, hpa]
      exact ih h

/-- C3: For every store state and every id that matches no stored record id
under exact case-sensitive string equality — including the empty string,
null, undefined, and any id over the empty store — Read, Update and Delete
all fail with the not-found error, and each succeeds exactly when some stored
record id equals the given id. -/
theorem lookup_notFound_characterization (st : List User) (idv : JsVal)
    (hids : ∀ u ∈ st, u.id ≠ none) :
    ((∃ u ∈ st, idMatches u idv = true) ↔
        ∃ s, idv = .str s ∧ ∃ u ∈ st, u.id = some s) ∧
      (getUserById st idv = .error "User not found" ↔
        ¬∃ u ∈ st, idMatches u idv = true) ∧
      ((∃ u, getUserById st idv = .ok u) ↔ ∃ u ∈ st, idMatches u idv = true) ∧
      (∀ (now : String) (p : User),
        updateUser now st idv p = .error "User not found" ↔
          ¬∃ u ∈ st, idMatches u idv = true) ∧
      (∀ (now : String) (p : User),
        (∃ r, updateUser now st idv p = .ok r) ↔
          ∃ u ∈ st, idMatches u idv = true) ∧
      (deleteUser st idv = .error "User not found" ↔
        ¬∃ u ∈ st, idMatches u idv = true) ∧
      ((∃ r, deleteUser st idv = .ok r) ↔ ∃ u ∈ st, idMatches u idv = true) := by
  have hiff : (∀ u ∈ st, idMatches u idv = false) ↔
      ¬∃ u ∈ st, idMatches u idv = true := by
    constructor
    · rintro h ⟨u, hu, hm⟩
      simp [h u hu] at hm
    · intro h u hu
      by_contra hc
      exact h ⟨u, hu, by simpa using hc⟩
  refine ⟨?_, ?_, getUserById_ok_iff, ?_, ?_, ?_, ?_⟩
  · constructor
    · rintro ⟨u, hu, hm⟩
      cases hidu : u.id with
      | none => exact absurd hidu (hids u hu)
      | some sId => exact ⟨sId, idMatches_of_id_some hidu hm, u, hu, hidu⟩
    · rintro ⟨sId, rfl, u, hu, hid⟩
      exact ⟨u, hu, idMatches_str.mpr hid⟩
  · rw [getUserById_error_iff]
    exact hiff
  · intro now p
    rw [updateUser_error_iff]
    exact hiff
  · intro now p
    constructor
    · rintro ⟨r, hr⟩
      have hr2 : updateUser now st idv p = .ok (r.1, r.2) := by rw [hr]
      obtain ⟨pre, old, post, hst, _, hold, _, _⟩ := updateUser_ok_inv hr2
      exact ⟨old, by rw [hst]; simp, hold⟩
    · intro h
      obtain ⟨pre, d, post, hst, hpre, hd⟩ := exists_first_match h
      subst hst
      exact ⟨_, updateUser_append now pre post d p idv hpre hd⟩
  · rw [deleteUser_error_iff]
    exact hiff
  · constructor
    · rintro ⟨r, hr⟩
      have hr2 : deleteUser st idv = .ok (r.1, r.2) := by rw [hr]
      obtain ⟨pre, post, hst, _, hd, _⟩ := deleteUser_ok_inv hr2
      exact ⟨r.1, by rw [hst]; simp, hd⟩
    · intro h
      obtain ⟨pre, d, post, hst, hpre, hd⟩ := exists_first_match h
      subst hst
      exact ⟨_, deleteUser_append pre post d idv hpre hd⟩

/-- Witness for C3: on the seeded store, the empty string, null, undefined
and an absent id all yield the not-found error, as does any id on the empty
store. -/
theorem lookup_notFound_characterization_witness :
    getUserById users (.str "") = .error "User not found" ∧
      getUserById users .nullV = .error "User not found" ∧
      getUserById users .undef = .error "User not found" ∧
      deleteUser users (.str "no-such-id") = .error "User not found" ∧
      updateUser "2025-01-01T00:00:00Z" users (.str "") {} =
        .error "User not found" ∧
      getUserById [] (.str "4b1335f4-788b-4e8d-9ed5-04b99ce430a4") =
        .error "User not found" :=
  ⟨((lookup_notFound_characterization users (.str "") (by decide)).2.1).mpr
      (by decide),
    ((lookup_notFound_characterization users .nullV (by decide)).2.1).mpr
      (by decide),
    ((lookup_notFound_characterization users .undef (by decide)).2.1).mpr
      (by decide),
    ((lookup_notFound_characterization users (.str "no-such-id")
        (by decide)).2.2.2.2.2.1).mpr (by decide),
    ((lookup_notFound_characterization users (.str "") (by decide)).2.2.2.1
        "2025-01-01T00:00:00Z" {}).mpr (by decide),
    ((lookup_notFound_characterization [] (.str
        "4b1335f4-788b-4e8d-9ed5-04b99ce430a4") (by decide)).2.1).mpr
      (by decide)⟩

/-- C7: For every store with pairwise-distinct ids containing a record
matching id, Delete returns that record, decreases the length by exactly one,
leaves the remaining records in their previous relative order, and afterwards
Read of the same id fails with the not-found error. -/
theorem delete_removes_exactly_one (st : List User) (idv : JsVal)
    (hnd : st.Pairwise (fun a b => a.id ≠ b.id))
    (hmatch : ∃ u ∈ st, idMatches u idv = true) :
    ∃ d pre post, st = pre ++ d :: post ∧ idMatches d idv = true ∧
      deleteUser st idv = .ok (d, pre ++ post) ∧
      st.length = (pre ++ post).length + 1 ∧
      getUserById (pre ++ post) idv = .error "User not found" := by
  obtain ⟨pre, d, post, hst, hpre, hd⟩ := exists_first_match hmatch
  subst hst
  refine ⟨d, pre, post, rfl, hd, deleteUser_append pre post d idv hpre hd,
    ?_, ?_⟩
  · simp only [List.length_append, List.length_cons]
    omega
  · rw [getUserById_error_iff]
    intro u hu
    rcases List.mem_append.mp hu with hu2 | hu2
    · exact hpre u hu2
    · by_cases hm2 : idMatches u idv = true
      · exfalso
        have hueq : u.id = d.id := idMatches_eq_id hm2 hd
        have hpair := (List.pairwise_append.mp hnd).2.1
        have hdune := (List.pairwise_cons.mp hpair).1 u hu2
        exact hdune hueq.symm
      · simpa using hm2

/-- Witness for C7: deleting the first seeded record. -/
theorem delete_removes_exactly_one_witness :
    ∃ d pre post, users = pre ++ d :: post ∧
      idMatches d (.str "4b1335f4-788b-4e8d-9ed5-04b99ce430a4") = true ∧
      deleteUser users (.str "4b1335f4-788b-4e8d-9ed5-04b99ce430a4") =
        .ok (d, pre ++ post) ∧
      users.length = (pre ++ post).length + 1 ∧
      getUserById (pre ++ post) (.str "4b1335f4-788b-4e8d-9ed5-04b99ce430a4") =
        .error "User not found" :=
  delete_removes_exactly_one users (.str "4b1335f4-788b-4e8d-9ed5-04b99ce430a4")
    (by decide) (by decide)

/-- C8: For every valid create input and every store in which the generated
id is fresh, Create and then Read with the id of the record Create returned
succeeds and yields a record equal to the create result. -/
theorem create_read_roundtrip (freshId now : String) (st : List User)
    (body v : List (String × String))
    (hval : validateRequest userCreateSchema body = .ok v)
    (hfresh : ∀ u ∈ st, u.id ≠ some freshId) :
    ∃ r, createUserPipeline freshId now st body = .ok (r, st ++ [r]) ∧
      r.id = some freshId ∧
      getUserById (st ++ [r]) (.str freshId) = .ok r := by
  refine ⟨newUserOf freshId now v, ?_, rfl, ?_⟩
  · unfold createUserPipeline
    rw [hval]
    rfl
  · unfold getUserById
    have hnone : st.find? (fun u => idMatches u (.str freshId)) = none := by
      rw [List.find?_eq_none]
      intro u hu
      simp only [idMatches_str]
      exact hfresh u hu
    rw [find?_append_of_none hnone]
    have hself : idMatches (newUserOf freshId now v) (.str freshId) = true :=
      idMatches_str.mpr rfl
    simp [List.find?, hself]

/-- Witness for C8: creating Zoe Quinn over the seeded store and reading her
back. -/
theorem create_read_roundtrip_witness :
    ∃ r, createUserPipeline "33333333-3333-4333-8333-333333333333"
        "2025-02-01T00:00:00.000Z" users
        [("firstName", "Zoe"), ("lastName", "Quinn")] = .ok (r, users ++ [r]) ∧
      r.id = some "33333333-3333-4333-8333-333333333333" ∧
      getUserById (users ++ [r])
        (.str "33333333-3333-4333-8333-333333333333") = .ok r :=
  create_read_roundtrip "33333333-3333-4333-8333-333333333333"
    "2025-02-01T00:00:00.000Z" users
    [("firstName", "Zoe"), ("lastName", "Quinn")]
    [("firstName", "Zoe"), ("lastName", "Quinn")] rfl (by decide)

/-- C5: For every input valid per the user-create schema, Create returns a
record whose id is the freshly generated one — non-empty and distinct from
every id already in the store under the freshness assumption on the
generator — whose createdAt equals its updatedAt, and whose sanitized body
carries no field beyond the four declared ones (so, with the three generated
fields, nothing beyond the seven declared fields; unknown input fields are
absent from the result). -/
theorem create_result_wellformed (freshId now : String) (st : List User)
    (body v : List (String × String))
    (hval : validateRequest userCreateSchema body = .ok v)
    (hne : freshId ≠ "") (hfresh : ∀ u ∈ st, u.id ≠ some freshId) :
    ∃ r, createUserPipeline freshId now st body = .ok (r, st ++ [r]) ∧
      (∃ s, r.id = some s ∧ s ≠ "" ∧ ∀ u ∈ st, u.id ≠ some s) ∧
      r.createdAt = r.updatedAt ∧
      ∀ kv ∈ v, kv.1 ∈ ["firstName", "lastName", "email", "phone"] := by
  refine ⟨newUserOf freshId now v, ?_, ⟨freshId, rfl, hne, hfresh⟩, rfl, ?_⟩
  · unfold createUserPipeline
    rw [hval]
    rfl
  · intro kv hkv
    obtain ⟨_, hv⟩ := validateRequest_ok_iff.mp hval
    rw [hv, validateFields_snd] at hkv
    have hmem := mem_sanitize_name hkv
    rwa [userCreateSchema_names] at hmem

/-- Witness for C5: a create input carrying an unknown `role` field. -/
theorem create_result_wellformed_witness :
    ∃ r, createUserPipeline "33333333-3333-4333-8333-333333333333"
        "2025-02-01T00:00:00.000Z" users
        [("firstName", "Zoe"), ("lastName", "Quinn"), ("role", "admin")] =
          .ok (r, users ++ [r]) ∧
      (∃ s, r.id = some s ∧ s ≠ "" ∧ ∀ u ∈ users, u.id ≠ some s) ∧
      r.createdAt = r.updatedAt ∧
      ∀ kv ∈ [("firstName", "Zoe"), ("lastName", "Quinn")],
        kv.1 ∈ ["firstName", "lastName", "email", "phone"] :=
  create_result_wellformed "33333333-3333-4333-8333-333333333333"
    "2025-02-01T00:00:00.000Z" users
    [("firstName", "Zoe"), ("lastName", "Quinn"), ("role", "admin")]
    [("firstName", "Zoe"), ("lastName", "Quinn")] rfl (by decide) (by decide)

/-- C9: Validation against the user-update schema treats all four fields as
optional: every payload in which all four are absent (including the empty
mapping, and payloads with only unknown keys) validates successfully, and in
general a payload validates exactly when each of the four fields, when
present, is a non-empty string passing its rule — so email and phone are
pattern-checked only when present. -/
theorem update_schema_all_optional (body : List (String × String)) :
    ((lookupField body "firstName" = none ∧ lookupField body "lastName" = none ∧
        lookupField body "email" = none ∧ lookupField body "phone" = none) →
      validateRequest userUpdateSchema body = .ok []) ∧
    ((∃ v, validateRequest userUpdateSchema body = .ok v) ↔
      ((∀ s, lookupField body "firstName" = some s → s ≠ "") ∧
        (∀ s, lookupField body "lastName" = some s → s ≠ "") ∧
        (∀ s, lookupField body "email" = some s →
          s ≠ "" ∧ emailCheck s = true) ∧
        (∀ s, lookupField body "phone" = some s →
          s ≠ "" ∧ phoneCheck s = true))) := by
  constructor
  · rintro ⟨h1, h2, h3, h4⟩
    rw [validateRequest_ok_iff]
    constructor
    · rw [validateFields_fst_nil_iff]
      intro f hf
      rw [userUpdateSchema_eq] at hf
      simp only [List.mem_cons, List.not_mem_nil, or_false] at hf
      rcases hf with rfl | rfl | rfl | rfl
      · simp [fieldOk, h1]
      · simp [fieldOk, h2]
      · simp [fieldOk, h3]
      · simp [fieldOk, h4]
    · rw [validateFields_snd]
      simp [sanitize, userUpdateSchema_eq, h1, h2, h3, h4]
  · have hex : (∃ v, validateRequest userUpdateSchema body = .ok v) ↔
        (validateFields userUpdateSchema body).1 = [] := by
      constructor
      · rintro ⟨v, hv⟩
        exact (validateRequest_ok_iff.mp hv).1
      · intro h
        exact ⟨_, validateRequest_ok_iff.mpr ⟨h, rfl⟩⟩
    rw [hex, validateFields_fst_nil_iff, userUpdateSchema_eq]
    simp only [List.forall_mem_cons]
    rw [fieldOk_plain, fieldOk_plain, fieldOk_single, fieldOk_single]
    constructor
    · rintro ⟨a, b, c, d, _⟩
      exact ⟨a, b, c, d⟩
    · rintro ⟨a, b, c, d⟩
      exact ⟨a, b, c, d, fun x hx => absurd hx (List.not_mem_nil x)⟩

/-- Witness for C9: a payload containing only unknown keys (here the
smuggled `id`/`createdAt`) validates successfully against the update
schema. -/
theorem update_schema_all_optional_witness :
    validateRequest userUpdateSchema [("id", "x"), ("createdAt", "y")] =
      .ok [] :=
  (update_schema_all_optional [("id", "x"), ("createdAt", "y")]).1
    ⟨rfl, rfl, rfl, rfl⟩

/-- A record created from a valid body that omits the optional `email` and
`phone` fields: it lacks those two keys. -/
def soloUser : User :=
  { id := some "00000000-0000-4000-8000-000000000000"
    firstName := some "Solo"
    lastName := some "NoMail"
    createdAt := some "2025-01-01T00:00:00Z"
    updatedAt := some "2025-01-01T00:00:00Z" }

/-- C6 counterexample: a store reachable from the seeded collection by one
Create — with a valid body omitting the optional email and phone — contains
a record that does not have all seven fields populated. -/
theorem allSevenPopulated_not_reachable_invariant :
    Reachable (users ++ [soloUser]) ∧ soloUser ∈ users ++ [soloUser] ∧
      ¬AllSevenPopulated soloUser := by
  refine ⟨?_, by simp, by decide⟩
  have h := Step.create "00000000-0000-4000-8000-000000000000"
    "2025-01-01T00:00:00Z" [("firstName", "Solo"), ("lastName", "NoMail")]
    [("firstName", "Solo"), ("lastName", "NoMail")] users rfl (by decide)
    (by decide)
  exact Relation.ReflTransGen.single (by convert h using 1)

/-- C6 (amended): every store state reachable from the seeded collection by
Create, Update and Delete — with fresh generated ids and a monotone clock —
has pairwise-distinct ids, and every stored record has id, firstName,
lastName, createdAt and updatedAt populated with createdAt ≤ updatedAt.
(The spec additionally claims email and phone are always populated; that
part fails, see the counterexample.) -/
theorem reachable_store_invariant (st : List User) (h : Reachable st) :
    StoreInv st := by
  unfold Reachable at h
  induction h with
  | refl => decide
  | tail _ hstep ih => exact storeInv_step ih hstep

/-- Witness for C6: the seeded store is reachable and satisfies the
invariant. -/
theorem reachable_store_invariant_witness : Reachable users ∧ StoreInv users :=
  ⟨Relation.ReflTransGen.refl,
    reachable_store_invariant users Relation.ReflTransGen.refl⟩

end ApiDemo
